import Mathlib

/-
  Verification of the upload-queue coordinator of the file-uploader repository.

  The definitions below are a shallow embedding of:
  - the data model of `src/types/upload.ts` (`UploadStatus`, `FileUploadItem`);
  - the queue hook `useUploadQueue` (`addFiles`, `retryFile`, `removeFile`,
    `clearCompleted`, `uploadFile`, `processQueue`, `stats`);
  - the transfer service `src/services/uploadService.ts` (`uploadWithRetry`
    and the error classification of the `onload` handler).

  Modelling conventions:
  - item ids are naturals drawn from a counter (the source draws random unique
    strings from `generateId`; the spec stipulates ids are unique and never
    reused);
  - the JavaScript `Set` of in-flight ids is a duplicate-free `List Nat`;
  - network outcomes (transfer attempts, remote deletions) are parameters of
    the corresponding operations;
  - timestamps (`uploadStartTime`, `uploadEndTime`) and the binary payload
    play no role in any property considered here and are omitted;
  - the processing flag and timer bookkeeping (`isProcessing`,
    `processingRef`, retry timeouts) are timing machinery and are not part of
    the state; the modelled events are the collection-mutating operations.
-/

namespace FileUploader

/-- Upload lifecycle status of a queued file (`UploadStatus` in
`src/types/upload.ts`). -/
inductive UploadStatus where
  | pending
  | uploading
  | completed
  | failed
  deriving DecidableEq

/-- One tracked upload item (`FileUploadItem` in `src/types/upload.ts`).
Payload and timestamp fields are omitted (see header). -/
structure FileUploadItem where
  id : Nat
  status : UploadStatus
  progress : Nat
  retryCount : Nat
  error : Option String
  s3Key : Option String
  fileUrl : Option String
  deriving DecidableEq

/-- The delete-failure message attached by `removeFile` and `clearCompleted`
("Failed to delete from storage"). -/
def deleteErrorMsg : String := "Failed to delete from storage"

/-- Convenience constructor for concrete items used in witnesses. -/
def mkItem (i : Nat) (st : UploadStatus) : FileUploadItem :=
  { id := i, status := st, progress := 0, retryCount := 0,
    error := none, s3Key := none, fileUrl := none }

/-- Derived queue statistics (`stats` in `useUploadQueue`, lines 376-382). -/
structure QueueStats where
  total : Nat
  pending : Nat
  uploading : Nat
  completed : Nat
  failed : Nat

/-- `stats`: each field is a filter count over the files collection. -/
def stats (files : List FileUploadItem) : QueueStats :=
  { total := files.length
    pending := (files.filter (fun f => f.status == .pending)).length
    uploading := (files.filter (fun f => f.status == .uploading)).length
    completed := (files.filter (fun f => f.status == .completed)).length
    failed := (files.filter (fun f => f.status == .failed)).length }

/-- Map over the files collection, updating exactly the items whose id
matches; this is the `prev.map(f => f.id === fileId ? { ...f, ... } : f)`
pattern used by every per-item state update in `useUploadQueue`. -/
def updateById (fileId : Nat) (upd : FileUploadItem → FileUploadItem)
    (files : List FileUploadItem) : List FileUploadItem :=
  files.map (fun f => if f.id == fileId then upd f else f)

/-- `retryFile` (`useUploadQueue` lines 100-113): resets the matching item to
pending with progress 0 and no error.  The source performs no status check on
the item. -/
def retryFile (files : List FileUploadItem) (fileId : Nat) :
    List FileUploadItem :=
  updateById fileId
    (fun f => { f with status := .pending, progress := 0, error := none })
    files

/-- Outcome of one transfer attempt, as `uploadService.uploadFile` settles
it: success carries the remote key and url; failure carries the message, the
`retryable` classification and the machine-readable code. -/
inductive AttemptOutcome where
  | success (s3Key fileUrl : String)
  | failure (message : String) (retryable : Bool) (code : String)
  deriving DecidableEq

/-- The attempt loop of `uploadWithRetry` (`uploadService.ts` lines 214-251),
starting at attempt index `attempt` with `fuel` further attempts allowed
(`fuel = maxRetries - attempt`).  On success the result is returned at once;
on failure the loop continues exactly when the error is retryable and
attempts remain (`!retryable || attempt === maxRetries` breaks); the settled
outcome is paired with the index of the attempt it settled on.  The backoff
delays are time, not state, and are not modelled. -/
def uploadWithRetryAux (outcomes : Nat → AttemptOutcome) (attempt : Nat) :
    Nat → AttemptOutcome × Nat
  | 0 => (outcomes attempt, attempt)
  | fuel + 1 =>
    match outcomes attempt with
    | .success k u => (.success k u, attempt)
    | .failure m r c =>
        if r then uploadWithRetryAux outcomes (attempt + 1) fuel
        else (.failure m r c, attempt)

/-- `uploadWithRetry`: run the attempt loop from attempt 0 with `maxRetries`
retries available; `outcomes n` is what the n-th `uploadFile` call settles
with. -/
def uploadWithRetry (outcomes : Nat → AttemptOutcome) (maxRetries : Nat) :
    AttemptOutcome × Nat :=
  uploadWithRetryAux outcomes 0 maxRetries

/-- The settlement the hook `uploadFile` (`useUploadQueue` lines 276-317)
applies to the item once `uploadWithRetry` resolves (success branch) or
rejects (catch branch).  On success the item keeps its current `retryCount`;
on failure `retryCount` is overwritten with `maxRetries`. -/
def finalizeItem (maxRetries : Nat) (r : AttemptOutcome)
    (f : FileUploadItem) : FileUploadItem :=
  match r with
  | .success k u =>
      { f with status := .completed, progress := 100, error := none,
               s3Key := some k, fileUrl := some u }
  | .failure m _ _ =>
      { f with status := .failed, error := some m, retryCount := maxRetries }

/-- The optional fields of the JSON error payload
`{ message?, retryable?, code? }` parsed out of a server response body. -/
structure ServerErrorBody where
  message : Option String
  retryable : Option Bool
  code : Option String
  deriving DecidableEq

/-- The body of a non-200 HTTP response as the `onload` handler sees it:
either `JSON.parse` throws (unparseable) or it yields an object whose `error`
field may be absent. -/
inductive ErrorResponseBody where
  | unparseable
  | parsed (error : Option ServerErrorBody)
  deriving DecidableEq

/-- The classified error built by `createUploadError`. -/
structure ClassifiedError where
  message : String
  retryable : Bool
  code : String
  deriving DecidableEq

/-- The non-200 branch of `uploadFile`'s `onload` handler (`uploadService.ts`
lines 120-141): with a parseable body, `retryable` is
`error.retryable !== false` ("default to retryable unless explicitly
false"); with an unparseable body, `retryable` is `status >= 500`. -/
def classifyHttpFailure (status : Nat) (statusText : String)
    (body : ErrorResponseBody) : ClassifiedError :=
  match body with
  | .parsed e? =>
      let e := e?.getD { message := none, retryable := none, code := none }
      { message :=
          e.message.getD ("HTTP " ++ toString status ++ ": " ++ statusText)
        retryable := e.retryable != some false
        code := e.code.getD ("HTTP_" ++ toString status) }
  | .unparseable =>
      { message := "HTTP " ++ toString status ++ ": " ++ statusText
        retryable := decide (500 ≤ status)
        code := "HTTP_" ++ toString status }

/-- The ids collected in `failedDeleteIds` during `clearCompleted`
(`useUploadQueue` lines 163-184): ids of items that are completed, carry an
`s3Key`, and whose remote deletion fails.  `delFail` is the set of remote
keys for which `uploadService.deleteFile` rejects. -/
def failedDeleteIds (delFail : List String)
    (files : List FileUploadItem) : List Nat :=
  ((files.filter (fun f => f.status == .completed && f.s3Key.isSome)).filter
      (fun f => f.s3Key.any (fun k => delFail.contains k))).map
    (fun f => f.id)

/-- The error-marking pass of `clearCompleted` (lines 186-195): items whose
deletion failed get the delete-failure error. -/
def markDeleteFailed (failedIds : List Nat) (f : FileUploadItem) :
    FileUploadItem :=
  if failedIds.contains f.id then { f with error := some deleteErrorMsg }
  else f

/-- `clearCompleted` (`useUploadQueue` lines 163-207), files-collection
effect: attach the delete-failure error to items whose deletion failed, then
keep exactly the completed items whose deletion failed together with the
items that are neither completed nor failed. -/
def clearCompletedFiles (delFail : List String)
    (files : List FileUploadItem) : List FileUploadItem :=
  let failedIds := failedDeleteIds delFail files
  (files.map (markDeleteFailed failedIds)).filter (fun f =>
    (f.status == .completed && failedIds.contains f.id) ||
      (f.status != .completed && f.status != .failed))

/-- `pendingFiles` in `processLoop` (`useUploadQueue` lines 334-336): the
pending items in collection order (submission order, since `addFiles`
appends). -/
def pendingList (files : List FileUploadItem) : List FileUploadItem :=
  files.filter (fun f => f.status == .pending)

/-- `filesToUpload` in `processLoop` (lines 339-343):
`availableSlots = maxConcurrent - uploading.size`, and
`pendingFiles.slice(0, availableSlots)`.  The source only slices under the
guard `availableSlots > 0`; with truncated subtraction `take 0` reproduces
the guarded behaviour exactly. -/
def filesToUpload (maxConcurrent uploadingCount : Nat)
    (files : List FileUploadItem) : List FileUploadItem :=
  (pendingList files).take (maxConcurrent - uploadingCount)

/-- Coordinator state owned by `useUploadQueue`: the files collection, the
`uploading` id set (a duplicate-free list), and the id counter used to model
the unique ids of `generateId`. -/
structure QueueState where
  files : List FileUploadItem
  uploading : List Nat
  nextId : Nat
  deriving DecidableEq

/-- The empty initial state of the hook. -/
def initialState : QueueState :=
  { files := [], uploading := [], nextId := 0 }

/-- JS `new Set([...prev, id])`: add `id` unless already present. -/
def insertId (l : List Nat) (i : Nat) : List Nat :=
  if i ∈ l then l else l ++ [i]

/-- A freshly enqueued item (`addFiles`, `useUploadQueue` lines 79-87). -/
def newItem (i : Nat) : FileUploadItem :=
  { id := i, status := .pending, progress := 0, retryCount := 0,
    error := none, s3Key := none, fileUrl := none }

/-- `addFiles` with `n` files: append `n` fresh pending items in submission
order. -/
def enqueueFiles (n : Nat) (s : QueueState) : QueueState :=
  { s with
    files := s.files ++ (List.range n).map (fun k => newItem (s.nextId + k))
    nextId := s.nextId + n }

/-- The synchronous prefix of the hook's `uploadFile` (lines 234-250): look
the item up, and if present add its id to the uploading set and mark it
Uploading. -/
def startUpload (s : QueueState) (fileId : Nat) : QueueState :=
  match s.files.find? (fun f => f.id == fileId) with
  | none => s
  | some _ =>
      { s with
        uploading := insertId s.uploading fileId
        files := updateById fileId (fun f => { f with status := .uploading })
          s.files }

/-- One `processLoop` scheduling evaluation (lines 328-348): start an upload
for each file in `filesToUpload`. -/
def processStep (maxConcurrent : Nat) (s : QueueState) : QueueState :=
  (filesToUpload maxConcurrent s.uploading.length s.files).foldl
    (fun t f => startUpload t f.id) s

/-- Successful settlement of an in-flight transfer (`uploadFile` lines
269-291): drop the id from the uploading set and mark the item Completed
with progress 100, no error, and the remote key and url; `retryCount` is
not touched. -/
def settleSuccess (s : QueueState) (fileId : Nat) (key url : String) :
    QueueState :=
  { s with
    uploading := s.uploading.erase fileId
    files := updateById fileId
      (fun f => { f with status := .completed, progress := 100,
                         error := none, s3Key := some key,
                         fileUrl := some url })
      s.files }

/-- Failing settlement of an in-flight transfer (`uploadFile` lines
292-317): drop the id from the uploading set and mark the item Failed with
the error message and `retryCount = maxRetries`. -/
def settleFailure (maxRetries : Nat) (s : QueueState) (fileId : Nat)
    (msg : String) : QueueState :=
  { s with
    uploading := s.uploading.erase fileId
    files := updateById fileId
      (fun f => { f with status := .failed, error := some msg,
                         retryCount := maxRetries })
      s.files }

/-- `retryFile` as a state update. -/
def retryFileState (s : QueueState) (fileId : Nat) : QueueState :=
  { s with files := retryFile s.files fileId }

/-- The unconditional-removal tail of `removeFile` (lines 151-157): drop the
item from the collection and its id from the uploading set. -/
def removeState (s : QueueState) (fileId : Nat) : QueueState :=
  { s with
    files := s.files.filter (fun f => f.id != fileId)
    uploading := s.uploading.erase fileId }

/-- `removeFile` (`useUploadQueue` lines 116-160): if the item is Completed
and holds an `s3Key`, remote deletion is attempted first; on deletion
failure the item is kept and only marked with the delete-failure error
(early return); otherwise the item is removed.  `delOk` is the outcome of
the `uploadService.deleteFile` call. -/
def removeFileState (delOk : Bool) (s : QueueState) (fileId : Nat) :
    QueueState :=
  match s.files.find? (fun f => f.id == fileId) with
  | some f =>
      if f.s3Key.isSome && f.status == .completed then
        if delOk then removeState s fileId
        else
          { s with
            files := updateById fileId
              (fun g => { g with error := some deleteErrorMsg }) s.files }
      else removeState s fileId
  | none => removeState s fileId

/-- `clearCompleted` as a state update (the uploading set is untouched). -/
def clearCompletedState (delFail : List String) (s : QueueState) :
    QueueState :=
  { s with files := clearCompletedFiles delFail s.files }

/-- The collection-mutating events of the coordinator.  Settlement events
carry the network outcome; remove/clear events carry the outcome of the
remote deletions.  The processing flag, `stop()` and the timers are timing
machinery without influence on the files collection and are not modelled. -/
inductive Event where
  | enqueue (n : Nat)
  | evalQueue
  | settleOk (fileId : Nat) (key url : String)
  | settleErr (fileId : Nat) (msg : String)
  | retryCmd (fileId : Nat)
  | removeCmd (fileId : Nat) (delOk : Bool)
  | clearCmd (delFail : List String)

/-- Apply one event to the coordinator state. -/
def applyEvent (maxConcurrent maxRetries : Nat) (s : QueueState) :
    Event → QueueState
  | .enqueue n => enqueueFiles n s
  | .evalQueue => processStep maxConcurrent s
  | .settleOk fid key url => settleSuccess s fid key url
  | .settleErr fid msg => settleFailure maxRetries s fid msg
  | .retryCmd fid => retryFileState s fid
  | .removeCmd fid delOk => removeFileState delOk s fid
  | .clearCmd delFail => clearCompletedState delFail s

/-- States reachable from the empty queue by event sequences. -/
inductive Reachable (maxConcurrent maxRetries : Nat) : QueueState → Prop
  | init : Reachable maxConcurrent maxRetries initialState
  | step {s : QueueState} (e : Event) :
      Reachable maxConcurrent maxRetries s →
      Reachable maxConcurrent maxRetries
        (applyEvent maxConcurrent maxRetries s e)

/-- The coordinator's structural state invariant: item ids are unique and
below the allocation counter, the uploading set is duplicate-free and covers
every item in Uploading status, and error fields are constrained by status
(none while Pending/Uploading; at most the delete-failure message while
Completed). -/
structure InvCore (s : QueueState) : Prop where
  idsNodup : (s.files.map (fun f => f.id)).Nodup
  idsFresh : ∀ f ∈ s.files, f.id < s.nextId
  upNodup : s.uploading.Nodup
  upSuper : ∀ f ∈ s.files, f.status = .uploading → f.id ∈ s.uploading
  errPending : ∀ f ∈ s.files, f.status = .pending → f.error = none
  errUploading : ∀ f ∈ s.files, f.status = .uploading → f.error = none
  errCompleted : ∀ f ∈ s.files, f.status = .completed →
    f.error = none ∨ f.error = some deleteErrorMsg

/-- The full invariant: the structural invariant plus the concurrency bound
on the uploading set. -/
def Inv (maxConcurrent : Nat) (s : QueueState) : Prop :=
  InvCore s ∧ s.uploading.length ≤ maxConcurrent

/-- A concrete completed item used to exhibit the behaviour of `retryFile`
on a non-failed item. -/
def completedItemC6 : FileUploadItem :=
  { id := 0, status := .completed, progress := 100, retryCount := 0,
    error := none, s3Key := some "k", fileUrl := some "u" }

/-- Attempt outcomes for the C4 scenario: retryable network failures on
attempts 0 and 1, success on attempt 2. -/
def outcomesC4 : Nat → AttemptOutcome
  | 0 => .failure "Network error - please check your connection" true
      "NETWORK_ERROR"
  | 1 => .failure "Network error - please check your connection" true
      "NETWORK_ERROR"
  | _ => .success "key" "url"

/-- Attempt outcomes for the C5 scenario: a non-retryable cancellation on
every attempt (only attempt 0 is ever consulted). -/
def outcomesC5 : Nat → AttemptOutcome := fun _ =>
  .failure "Upload cancelled by user" false "USER_CANCELLED"

/-- Concrete four-item queue for the C2 witness: a pending item, a completed
item whose key fails deletion, a completed item whose key deletes fine, and
a failed item. -/
def filesC2w : List FileUploadItem :=
  [mkItem 0 .pending,
   { mkItem 1 .completed with s3Key := some "bad" },
   { mkItem 2 .completed with s3Key := some "good" },
   mkItem 3 .failed]

/-- Concrete queue for the C8 witness: three pending items. -/
def filesC8w : List FileUploadItem :=
  [mkItem 0 .pending, mkItem 1 .pending, mkItem 2 .pending]

/-- The Completed-with-remote-key item of the C7 witness state. -/
def itemC7w : FileUploadItem :=
  { id := 0, status := .completed, progress := 100, retryCount := 0,
    error := none, s3Key := some "sk", fileUrl := some "fu" }

/-- Concrete state for the C7 witness: one Completed item with a remote
key. -/
def stateC7w : QueueState :=
  { files := [itemC7w], uploading := [], nextId := 1 }

/-- A concrete event trace: enqueue one file, admit it, settle it
successfully, then remove it while the remote deletion fails.  The final
state holds a Completed item carrying the delete-failure error. -/
def traceStateC9 : QueueState :=
  applyEvent 2 3
    (applyEvent 2 3
      (applyEvent 2 3
        (applyEvent 2 3 initialState (Event.enqueue 1))
        Event.evalQueue)
      (Event.settleOk 0 "k" "u"))
    (Event.removeCmd 0 false)

/-- The single item of `traceStateC9`: Completed, carrying the
delete-failure error. -/
def itemC9w : FileUploadItem :=
  { id := 0, status := .completed, progress := 100, retryCount := 0,
    error := some deleteErrorMsg, s3Key := some "k", fileUrl := some "u" }

/-! Helper lemmas about the list operations of the embedding. -/

/-- Membership in `updateById`: every member is either the updated image of
a matching item or an untouched non-matching item. -/
theorem mem_updateById {fileId : Nat} {upd : FileUploadItem → FileUploadItem}
    {files : List FileUploadItem} {g : FileUploadItem}
    (hg : g ∈ updateById fileId upd files) :
    (∃ f ∈ files, f.id = fileId ∧ g = upd f) ∨
      (g ∈ files ∧ g.id ≠ fileId) := by
  obtain ⟨f, hf, hfe⟩ := List.mem_map.1 hg
  by_cases hc : f.id = fileId
  · exact Or.inl ⟨f, hf, hc, by rw [← hfe]; simp [hc]⟩
  · have hgf : g = f := by rw [← hfe]; simp [hc]
    exact Or.inr ⟨hgf ▸ hf, by rw [hgf]; exact hc⟩

/-- `updateById` with an id-preserving update preserves the id list. -/
theorem idsOf_updateById (fileId : Nat)
    (upd : FileUploadItem → FileUploadItem)
    (hid : ∀ f, (upd f).id = f.id) (files : List FileUploadItem) :
    (updateById fileId upd files).map (fun f => f.id) =
      files.map (fun f => f.id) := by
  simp only [updateById, List.map_map]
  refine List.map_congr_left ?_
  intro f hf
  by_cases hc : f.id = fileId <;> simp [Function.comp, hc, hid]

/-- `updateById` preserves the collection length. -/
theorem length_updateById (fileId : Nat)
    (upd : FileUploadItem → FileUploadItem) (files : List FileUploadItem) :
    (updateById fileId upd files).length = files.length := by
  simp [updateById]

/-- `insertId` preserves duplicate-freeness. -/
theorem insertId_nodup {l : List Nat} (h : l.Nodup) (i : Nat) :
    (insertId l i).Nodup := by
  unfold insertId
  split
  · exact h
  · next hni => simp [List.nodup_append, h, hni]

/-- The inserted id is a member. -/
theorem mem_insertId_self (l : List Nat) (i : Nat) : i ∈ insertId l i := by
  unfold insertId
  split
  · next h => exact h
  · simp

/-- Existing members survive `insertId`. -/
theorem mem_insertId_of_mem {l : List Nat} {x : Nat} (h : x ∈ l) (i : Nat) :
    x ∈ insertId l i := by
  unfold insertId
  split
  · exact h
  · simp [h]

/-- `insertId` grows the set by at most one element. -/
theorem length_insertId_le (l : List Nat) (i : Nat) :
    (insertId l i).length ≤ l.length + 1 := by
  unfold insertId
  split <;> simp

/-- With duplicate-free ids, items are determined by their id. -/
theorem id_inj_of_nodup {files : List FileUploadItem}
    (hnd : (files.map (fun f => f.id)).Nodup) :
    ∀ x ∈ files, ∀ y ∈ files, x.id = y.id → x = y := by
  intro x hx y hy hxy
  exact List.inj_on_of_nodup_map hnd hx hy hxy

/-- Characterization of `failedDeleteIds` membership. -/
theorem mem_failedDeleteIds (delFail : List String)
    (files : List FileUploadItem) (i : Nat) :
    i ∈ failedDeleteIds delFail files ↔
      ∃ f ∈ files, f.id = i ∧ f.status = .completed ∧
        ∃ k, f.s3Key = some k ∧ k ∈ delFail := by
  simp only [failedDeleteIds, List.mem_map, List.mem_filter]
  constructor
  · rintro ⟨f, ⟨⟨hf, hcs⟩, hk⟩, rfl⟩
    rw [Bool.and_eq_true] at hcs
    cases hs : f.s3Key with
    | none => rw [hs] at hk; simp at hk
    | some k =>
      rw [hs] at hk
      simp only [Option.any_some] at hk
      refine ⟨f, hf, rfl, beq_iff_eq.1 hcs.1, k, hs, ?_⟩
      simpa using hk
  · rintro ⟨f, hf, rfl, hst, k, hsk, hkf⟩
    refine ⟨f, ⟨⟨hf, ?_⟩, ?_⟩, rfl⟩
    · simp [hst, hsk]
    · simp [hsk, hkf]

/-- `markDeleteFailed` preserves the item's id. -/
theorem markDeleteFailed_id (failedIds : List Nat) (f : FileUploadItem) :
    (markDeleteFailed failedIds f).id = f.id := by
  unfold markDeleteFailed
  split <;> rfl

/-- `markDeleteFailed` preserves the item's status. -/
theorem markDeleteFailed_status (failedIds : List Nat)
    (f : FileUploadItem) :
    (markDeleteFailed failedIds f).status = f.status := by
  unfold markDeleteFailed
  split <;> rfl

/-! Invariant preservation, one lemma per operation. -/

/-- `addFiles` preserves the structural invariant. -/
theorem invCore_enqueueFiles {s : QueueState} (h : InvCore s) (n : Nat) :
    InvCore (enqueueFiles n s) := by
  obtain ⟨h1, h2, h3, h4, h6, h7, h8⟩ := h
  refine ⟨?_, ?_, h3, ?_, ?_, ?_, ?_⟩
  · simp only [enqueueFiles, List.map_append]
    rw [List.nodup_append]
    refine ⟨h1, ?_, ?_⟩
    · rw [List.map_map]
      refine List.Nodup.map ?_ (List.nodup_range n)
      intro a b hab
      simp only [Function.comp, newItem] at hab
      omega
    · intro x hx hy
      obtain ⟨f, hf, rfl⟩ := List.mem_map.1 hx
      rw [List.map_map] at hy
      obtain ⟨k, hk, hke⟩ := List.mem_map.1 hy
      have hfn := h2 f hf
      simp only [Function.comp, newItem] at hke
      omega
  · intro f hf
    simp only [enqueueFiles] at hf ⊢
    rcases List.mem_append.1 hf with hl | hr
    · have := h2 f hl
      omega
    · obtain ⟨k, hk, rfl⟩ := List.mem_map.1 hr
      have := List.mem_range.1 hk
      simp only [newItem]
      omega
  · intro f hf hst
    simp only [enqueueFiles] at hf ⊢
    rcases List.mem_append.1 hf with hl | hr
    · exact h4 f hl hst
    · obtain ⟨k, hk, rfl⟩ := List.mem_map.1 hr
      simp [newItem] at hst
  · intro f hf hst
    simp only [enqueueFiles] at hf
    rcases List.mem_append.1 hf with hl | hr
    · exact h6 f hl hst
    · obtain ⟨k, hk, rfl⟩ := List.mem_map.1 hr
      simp [newItem]
  · intro f hf hst
    simp only [enqueueFiles] at hf
    rcases List.mem_append.1 hf with hl | hr
    · exact h7 f hl hst
    · obtain ⟨k, hk, rfl⟩ := List.mem_map.1 hr
      simp [newItem] at hst
  · intro f hf hst
    simp only [enqueueFiles] at hf
    rcases List.mem_append.1 hf with hl | hr
    · exact h8 f hl hst
    · obtain ⟨k, hk, rfl⟩ := List.mem_map.1 hr
      simp [newItem] at hst

/-- `startUpload` preserves the structural invariant when every item with
the started id is pending, and grows the uploading set by at most one. -/
theorem invCore_startUpload {s : QueueState} (fileId : Nat) (h : InvCore s)
    (hp : ∀ f ∈ s.files, f.id = fileId → f.status = .pending) :
    InvCore (startUpload s fileId) ∧
      (startUpload s fileId).uploading.length ≤ s.uploading.length + 1 := by
  obtain ⟨h1, h2, h3, h4, h6, h7, h8⟩ := h
  cases hfind : s.files.find? (fun f => f.id == fileId) with
  | none =>
    have hs : startUpload s fileId = s := by
      unfold startUpload
      rw [hfind]
    rw [hs]
    exact ⟨⟨h1, h2, h3, h4, h6, h7, h8⟩, by omega⟩
  | some f0 =>
    have hfiles : (startUpload s fileId).files =
        updateById fileId (fun f => { f with status := .uploading })
          s.files := by
      unfold startUpload
      rw [hfind]
    have hup : (startUpload s fileId).uploading =
        insertId s.uploading fileId := by
      unfold startUpload
      rw [hfind]
    have hnext : (startUpload s fileId).nextId = s.nextId := by
      unfold startUpload
      rw [hfind]
    refine ⟨⟨?_, ?_, ?_, ?_, ?_, ?_, ?_⟩, ?_⟩
    · rw [hfiles, idsOf_updateById fileId
        (fun f => { f with status := .uploading }) (fun f => rfl)]
      exact h1
    · intro f hf
      rw [hnext]
      rw [hfiles] at hf
      rcases mem_updateById hf with ⟨f1, hf1, hfid, rfl⟩ | ⟨hf1, -⟩
      · exact h2 f1 hf1
      · exact h2 f hf1
    · rw [hup]
      exact insertId_nodup h3 fileId
    · intro f hf hst
      rw [hup]
      rw [hfiles] at hf
      rcases mem_updateById hf with ⟨f1, hf1, hfid, rfl⟩ | ⟨hf1, hne⟩
      · have hi : ({ f1 with status := UploadStatus.uploading }
            : FileUploadItem).id = fileId := hfid
        rw [hi]
        exact mem_insertId_self s.uploading fileId
      · exact mem_insertId_of_mem (h4 f hf1 hst) fileId
    · intro f hf hst
      rw [hfiles] at hf
      rcases mem_updateById hf with ⟨f1, hf1, hfid, rfl⟩ | ⟨hf1, -⟩
      · simp at hst
      · exact h6 f hf1 hst
    · intro f hf hst
      rw [hfiles] at hf
      rcases mem_updateById hf with ⟨f1, hf1, hfid, rfl⟩ | ⟨hf1, -⟩
      · exact h6 f1 hf1 (hp f1 hf1 hfid)
      · exact h7 f hf1 hst
    · intro f hf hst
      rw [hfiles] at hf
      rcases mem_updateById hf with ⟨f1, hf1, hfid, rfl⟩ | ⟨hf1, -⟩
      · simp at hst
      · exact h8 f hf1 hst
    · rw [hup]
      exact length_insertId_le s.uploading fileId

/-- `startUpload` on one id leaves other ids' items pending. -/
theorem startUpload_pending_other {s : QueueState} {fileId j : Nat}
    (hne : j ≠ fileId)
    (hp : ∀ f ∈ s.files, f.id = j → f.status = .pending) :
    ∀ f ∈ (startUpload s fileId).files, f.id = j → f.status = .pending := by
  intro f hf hfj
  cases hfind : s.files.find? (fun g => g.id == fileId) with
  | none =>
    have hs : startUpload s fileId = s := by
      unfold startUpload
      rw [hfind]
    rw [hs] at hf
    exact hp f hf hfj
  | some f0 =>
    have hfiles : (startUpload s fileId).files =
        updateById fileId (fun g => { g with status := .uploading })
          s.files := by
      unfold startUpload
      rw [hfind]
    rw [hfiles] at hf
    rcases mem_updateById hf with ⟨f1, hf1, hfid, rfl⟩ | ⟨hf1, -⟩
    · have hj2 : f1.id = j := hfj
      have : j = fileId := by rw [← hj2]; exact hfid
      exact absurd this hne
    · exact hp f hf1 hfj

/-- Folding `startUpload` over a duplicate-free list of pending ids keeps
the structural invariant and grows the uploading set by at most the number
of admitted ids. -/
theorem invCore_foldStart : ∀ (ids : List Nat) (s : QueueState),
    InvCore s → ids.Nodup →
    (∀ i ∈ ids, ∀ f ∈ s.files, f.id = i → f.status = .pending) →
    InvCore (ids.foldl startUpload s) ∧
      (ids.foldl startUpload s).uploading.length ≤
        s.uploading.length + ids.length := by
  intro ids
  induction ids with
  | nil =>
    intro s h _ _
    exact ⟨h, by simp⟩
  | cons i is ih =>
    intro s h hnd hp
    simp only [List.foldl_cons, List.length_cons]
    have hpi : ∀ f ∈ s.files, f.id = i → f.status = .pending :=
      hp i (List.mem_cons_self i is)
    obtain ⟨hc1, hlen1⟩ := invCore_startUpload i h hpi
    have hnd' : is.Nodup := (List.nodup_cons.1 hnd).2
    have hni : i ∉ is := (List.nodup_cons.1 hnd).1
    have hp' : ∀ j ∈ is, ∀ f ∈ (startUpload s i).files,
        f.id = j → f.status = .pending := by
      intro j hj
      exact startUpload_pending_other (fun hji => hni (hji ▸ hj))
        (hp j (List.mem_cons_of_mem _ hj))
    obtain ⟨hc2, hlen2⟩ := ih (startUpload s i) hc1 hnd' hp'
    exact ⟨hc2, by omega⟩

/-- One scheduling evaluation preserves the full invariant: the admitted
batch is bounded by the free slots. -/
theorem inv_processStep {maxConcurrent : Nat} {s : QueueState}
    (h : Inv maxConcurrent s) : Inv maxConcurrent (processStep maxConcurrent s) := by
  obtain ⟨hc, hb⟩ := h
  have hfold : processStep maxConcurrent s =
      ((filesToUpload maxConcurrent s.uploading.length s.files).map
        (fun f => f.id)).foldl startUpload s := by
    rw [processStep, List.foldl_map]
  have hsub1 : List.Sublist
      (filesToUpload maxConcurrent s.uploading.length s.files)
      (pendingList s.files) := List.take_sublist _ _
  have hsub2 : List.Sublist (pendingList s.files) s.files :=
    List.filter_sublist s.files
  have hidnd : ((filesToUpload maxConcurrent s.uploading.length
      s.files).map (fun f => f.id)).Nodup :=
    hc.idsNodup.sublist ((hsub1.trans hsub2).map (fun f => f.id))
  have hpend : ∀ i ∈ (filesToUpload maxConcurrent s.uploading.length
      s.files).map (fun f => f.id),
      ∀ f ∈ s.files, f.id = i → f.status = .pending := by
    intro i hi f hf hfi
    obtain ⟨f0, hf0, rfl⟩ := List.mem_map.1 hi
    have hf0p : f0 ∈ pendingList s.files := hsub1.subset hf0
    have hf0mem : f0 ∈ s.files := hsub2.subset hf0p
    have hf0st : f0.status = .pending := by
      have := (List.mem_filter.1 hf0p).2
      simpa using this
    have hff0 : f = f0 := id_inj_of_nodup hc.idsNodup f hf f0 hf0mem hfi
    rw [hff0]
    exact hf0st
  obtain ⟨hc', hlen'⟩ := invCore_foldStart _ s hc hidnd hpend
  rw [hfold]
  refine ⟨hc', ?_⟩
  have hlen : ((filesToUpload maxConcurrent s.uploading.length
      s.files).map (fun f => f.id)).length ≤
      maxConcurrent - s.uploading.length := by
    simp only [List.length_map, filesToUpload, List.length_take]
    exact min_le_left _ _
  omega

/-- Successful settlement preserves the full invariant. -/
theorem inv_settleSuccess {maxConcurrent : Nat} {s : QueueState}
    (h : Inv maxConcurrent s) (fileId : Nat) (key url : String) :
    Inv maxConcurrent (settleSuccess s fileId key url) := by
  obtain ⟨⟨h1, h2, h3, h4, h6, h7, h8⟩, hb⟩ := h
  refine ⟨⟨?_, ?_, ?_, ?_, ?_, ?_, ?_⟩, ?_⟩
  · simp only [settleSuccess]
    rw [idsOf_updateById fileId
      (fun f => { f with status := .completed, progress := 100,
                         error := none, s3Key := some key,
                         fileUrl := some url }) (fun f => rfl)]
    exact h1
  · intro f hf
    simp only [settleSuccess] at hf ⊢
    rcases mem_updateById hf with ⟨f1, hf1, hfid, rfl⟩ | ⟨hf1, -⟩
    · exact h2 f1 hf1
    · exact h2 f hf1
  · simp only [settleSuccess]
    exact h3.erase fileId
  · intro f hf hst
    simp only [settleSuccess] at hf ⊢
    rcases mem_updateById hf with ⟨f1, hf1, hfid, rfl⟩ | ⟨hf1, hne⟩
    · simp at hst
    · exact (List.mem_erase_of_ne hne).2 (h4 f hf1 hst)
  · intro f hf hst
    simp only [settleSuccess] at hf
    rcases mem_updateById hf with ⟨f1, hf1, hfid, rfl⟩ | ⟨hf1, -⟩
    · simp at hst
    · exact h6 f hf1 hst
  · intro f hf hst
    simp only [settleSuccess] at hf
    rcases mem_updateById hf with ⟨f1, hf1, hfid, rfl⟩ | ⟨hf1, -⟩
    · simp at hst
    · exact h7 f hf1 hst
  · intro f hf hst
    simp only [settleSuccess] at hf
    rcases mem_updateById hf with ⟨f1, hf1, hfid, rfl⟩ | ⟨hf1, -⟩
    · exact Or.inl rfl
    · exact h8 f hf1 hst
  · simp only [settleSuccess]
    exact le_trans (List.length_erase_le _ _) hb

/-- Failing settlement preserves the full invariant. -/
theorem inv_settleFailure {maxConcurrent : Nat} {s : QueueState}
    (h : Inv maxConcurrent s) (maxRetries fileId : Nat) (msg : String) :
    Inv maxConcurrent (settleFailure maxRetries s fileId msg) := by
  obtain ⟨⟨h1, h2, h3, h4, h6, h7, h8⟩, hb⟩ := h
  refine ⟨⟨?_, ?_, ?_, ?_, ?_, ?_, ?_⟩, ?_⟩
  · simp only [settleFailure]
    rw [idsOf_updateById fileId
      (fun f => { f with status := .failed, error := some msg,
                         retryCount := maxRetries }) (fun f => rfl)]
    exact h1
  · intro f hf
    simp only [settleFailure] at hf ⊢
    rcases mem_updateById hf with ⟨f1, hf1, hfid, rfl⟩ | ⟨hf1, -⟩
    · exact h2 f1 hf1
    · exact h2 f hf1
  · simp only [settleFailure]
    exact h3.erase fileId
  · intro f hf hst
    simp only [settleFailure] at hf ⊢
    rcases mem_updateById hf with ⟨f1, hf1, hfid, rfl⟩ | ⟨hf1, hne⟩
    · simp at hst
    · exact (List.mem_erase_of_ne hne).2 (h4 f hf1 hst)
  · intro f hf hst
    simp only [settleFailure] at hf
    rcases mem_updateById hf with ⟨f1, hf1, hfid, rfl⟩ | ⟨hf1, -⟩
    · simp at hst
    · exact h6 f hf1 hst
  · intro f hf hst
    simp only [settleFailure] at hf
    rcases mem_updateById hf with ⟨f1, hf1, hfid, rfl⟩ | ⟨hf1, -⟩
    · simp at hst
    · exact h7 f hf1 hst
  · intro f hf hst
    simp only [settleFailure] at hf
    rcases mem_updateById hf with ⟨f1, hf1, hfid, rfl⟩ | ⟨hf1, -⟩
    · simp at hst
    · exact h8 f hf1 hst
  · simp only [settleFailure]
    exact le_trans (List.length_erase_le _ _) hb

/-- `retryFile` preserves the full invariant. -/
theorem inv_retryFileState {maxConcurrent : Nat} {s : QueueState}
    (h : Inv maxConcurrent s) (fileId : Nat) :
    Inv maxConcurrent (retryFileState s fileId) := by
  obtain ⟨⟨h1, h2, h3, h4, h6, h7, h8⟩, hb⟩ := h
  refine ⟨⟨?_, ?_, h3, ?_, ?_, ?_, ?_⟩, hb⟩
  · simp only [retryFileState, retryFile]
    rw [idsOf_updateById fileId
      (fun f => { f with status := .pending, progress := 0,
                         error := none }) (fun f => rfl)]
    exact h1
  · intro f hf
    simp only [retryFileState, retryFile] at hf ⊢
    rcases mem_updateById hf with ⟨f1, hf1, hfid, rfl⟩ | ⟨hf1, -⟩
    · exact h2 f1 hf1
    · exact h2 f hf1
  · intro f hf hst
    simp only [retryFileState, retryFile] at hf ⊢
    rcases mem_updateById hf with ⟨f1, hf1, hfid, rfl⟩ | ⟨hf1, -⟩
    · simp at hst
    · exact h4 f hf1 hst
  · intro f hf hst
    simp only [retryFileState, retryFile] at hf
    rcases mem_updateById hf with ⟨f1, hf1, hfid, rfl⟩ | ⟨hf1, -⟩
    · rfl
    · exact h6 f hf1 hst
  · intro f hf hst
    simp only [retryFileState, retryFile] at hf
    rcases mem_updateById hf with ⟨f1, hf1, hfid, rfl⟩ | ⟨hf1, -⟩
    · simp at hst
    · exact h7 f hf1 hst
  · intro f hf hst
    simp only [retryFileState, retryFile] at hf
    rcases mem_updateById hf with ⟨f1, hf1, hfid, rfl⟩ | ⟨hf1, -⟩
    · simp at hst
    · exact h8 f hf1 hst

/-- Unconditional removal preserves the full invariant. -/
theorem inv_removeState {maxConcurrent : Nat} {s : QueueState}
    (h : Inv maxConcurrent s) (fileId : Nat) :
    Inv maxConcurrent (removeState s fileId) := by
  obtain ⟨⟨h1, h2, h3, h4, h6, h7, h8⟩, hb⟩ := h
  refine ⟨⟨?_, ?_, ?_, ?_, ?_, ?_, ?_⟩, ?_⟩
  · simp only [removeState]
    exact h1.sublist ((List.filter_sublist s.files).map (fun f => f.id))
  · intro f hf
    simp only [removeState] at hf ⊢
    exact h2 f (List.mem_filter.1 hf).1
  · simp only [removeState]
    exact h3.erase fileId
  · intro f hf hst
    simp only [removeState] at hf ⊢
    obtain ⟨hf1, hpred⟩ := List.mem_filter.1 hf
    have hne : f.id ≠ fileId := by simpa using hpred
    exact (List.mem_erase_of_ne hne).2 (h4 f hf1 hst)
  · intro f hf hst
    simp only [removeState] at hf
    exact h6 f (List.mem_filter.1 hf).1 hst
  · intro f hf hst
    simp only [removeState] at hf
    exact h7 f (List.mem_filter.1 hf).1 hst
  · intro f hf hst
    simp only [removeState] at hf
    exact h8 f (List.mem_filter.1 hf).1 hst
  · simp only [removeState]
    exact le_trans (List.length_erase_le _ _) hb

/-- `removeFile` preserves the full invariant for every deletion outcome. -/
theorem inv_removeFileState {maxConcurrent : Nat} {s : QueueState}
    (h : Inv maxConcurrent s) (delOk : Bool) (fileId : Nat) :
    Inv maxConcurrent (removeFileState delOk s fileId) := by
  cases hfind : s.files.find? (fun f => f.id == fileId) with
  | none =>
    have hs : removeFileState delOk s fileId = removeState s fileId := by
      unfold removeFileState
      rw [hfind]
    rw [hs]
    exact inv_removeState h fileId
  | some f0 =>
    by_cases hguard : (f0.s3Key.isSome && f0.status == .completed) = true
    · cases delOk with
      | true =>
        have hs : removeFileState true s fileId = removeState s fileId := by
          unfold removeFileState
          rw [hfind]
          simp [hguard]
        rw [hs]
        exact inv_removeState h fileId
      | false =>
        have hfiles : (removeFileState false s fileId).files =
            updateById fileId
              (fun g => { g with error := some deleteErrorMsg }) s.files := by
          unfold removeFileState
          rw [hfind]
          simp [hguard]
        have hup : (removeFileState false s fileId).uploading =
            s.uploading := by
          unfold removeFileState
          rw [hfind]
          simp [hguard]
        have hnext : (removeFileState false s fileId).nextId = s.nextId := by
          unfold removeFileState
          rw [hfind]
          simp [hguard]
        have hf0c : f0.status = .completed := by
          rw [Bool.and_eq_true] at hguard
          exact beq_iff_eq.1 hguard.2
        have hf0mem : f0 ∈ s.files := List.mem_of_find?_eq_some hfind
        have hf0id : f0.id = fileId := by
          have := List.find?_some hfind
          exact beq_iff_eq.1 this
        obtain ⟨⟨h1, h2, h3, h4, h6, h7, h8⟩, hb⟩ := h
        have hmatch : ∀ f1 ∈ s.files, f1.id = fileId → f1 = f0 := by
          intro f1 hf1 hid1
          exact id_inj_of_nodup h1 f1 hf1 f0 hf0mem (by rw [hid1, hf0id])
        refine ⟨⟨?_, ?_, ?_, ?_, ?_, ?_, ?_⟩, ?_⟩
        · rw [hfiles, idsOf_updateById fileId
            (fun g => { g with error := some deleteErrorMsg })
            (fun f => rfl)]
          exact h1
        · intro f hf
          rw [hnext]
          rw [hfiles] at hf
          rcases mem_updateById hf with ⟨f1, hf1, hfid, rfl⟩ | ⟨hf1, -⟩
          · exact h2 f1 hf1
          · exact h2 f hf1
        · rw [hup]
          exact h3
        · intro f hf hst
          rw [hup]
          rw [hfiles] at hf
          rcases mem_updateById hf with ⟨f1, hf1, hfid, rfl⟩ | ⟨hf1, -⟩
          · have hst' : f1.status = .uploading := hst
            rw [hmatch f1 hf1 hfid, hf0c] at hst'
            exact absurd hst' (by decide)
          · exact h4 f hf1 hst
        · intro f hf hst
          rw [hfiles] at hf
          rcases mem_updateById hf with ⟨f1, hf1, hfid, rfl⟩ | ⟨hf1, -⟩
          · have hst' : f1.status = .pending := hst
            rw [hmatch f1 hf1 hfid, hf0c] at hst'
            exact absurd hst' (by decide)
          · exact h6 f hf1 hst
        · intro f hf hst
          rw [hfiles] at hf
          rcases mem_updateById hf with ⟨f1, hf1, hfid, rfl⟩ | ⟨hf1, -⟩
          · have hst' : f1.status = .uploading := hst
            rw [hmatch f1 hf1 hfid, hf0c] at hst'
            exact absurd hst' (by decide)
          · exact h7 f hf1 hst
        · intro f hf hst
          rw [hfiles] at hf
          rcases mem_updateById hf with ⟨f1, hf1, hfid, rfl⟩ | ⟨hf1, -⟩
          · exact Or.inr rfl
          · exact h8 f hf1 hst
        · rw [hup]
          exact hb
    · have hs : removeFileState delOk s fileId = removeState s fileId := by
        unfold removeFileState
        rw [hfind]
        simp [hguard]
      rw [hs]
      exact inv_removeState h fileId

/-- `clearCompleted` preserves the full invariant. -/
theorem inv_clearCompletedState {maxConcurrent : Nat} {s : QueueState}
    (h : Inv maxConcurrent s) (delFail : List String) :
    Inv maxConcurrent (clearCompletedState delFail s) := by
  obtain ⟨⟨h1, h2, h3, h4, h6, h7, h8⟩, hb⟩ := h
  have hmem : ∀ g ∈ clearCompletedFiles delFail s.files,
      ∃ f ∈ s.files, g.id = f.id ∧ g.status = f.status ∧
        (g = f ∨ (g = { f with error := some deleteErrorMsg } ∧
          f.status = .completed)) := by
    intro g hg
    simp only [clearCompletedFiles, List.mem_filter, List.mem_map] at hg
    obtain ⟨⟨f, hf, hfe⟩, -⟩ := hg
    by_cases hc : f.id ∈ failedDeleteIds delFail s.files
    · obtain ⟨f1, hf1, hf1id, hf1c, -⟩ :=
        (mem_failedDeleteIds delFail s.files f.id).1 hc
      have hf1f : f1 = f := id_inj_of_nodup h1 f1 hf1 f hf hf1id
      rw [hf1f] at hf1c
      have hge : g = { f with error := some deleteErrorMsg } := by
        rw [← hfe]
        simp [markDeleteFailed, hc]
      exact ⟨f, hf, by rw [hge], by rw [hge], Or.inr ⟨hge, hf1c⟩⟩
    · have hge : g = f := by
        rw [← hfe]
        simp [markDeleteFailed, hc]
      exact ⟨f, hf, by rw [hge], by rw [hge], Or.inl hge⟩
  refine ⟨⟨?_, ?_, h3, ?_, ?_, ?_, ?_⟩, hb⟩
  · simp only [clearCompletedState, clearCompletedFiles]
    refine List.Nodup.sublist
      ((List.filter_sublist _).map (fun f : FileUploadItem => f.id)) ?_
    rw [List.map_map]
    have hcongr : ∀ f ∈ s.files,
        ((fun f => f.id) ∘ markDeleteFailed
          (failedDeleteIds delFail s.files)) f = f.id := by
      intro f hf
      simp [Function.comp, markDeleteFailed_id]
    rw [List.map_congr_left hcongr]
    exact h1
  · intro f hf
    simp only [clearCompletedState] at hf ⊢
    obtain ⟨f1, hf1, hid, -, -⟩ := hmem f hf
    rw [hid]
    exact h2 f1 hf1
  · intro f hf hst
    simp only [clearCompletedState] at hf ⊢
    obtain ⟨f1, hf1, hid, hstat, -⟩ := hmem f hf
    rw [hid]
    exact h4 f1 hf1 (by rw [← hstat, hst])
  · intro f hf hst
    simp only [clearCompletedState] at hf
    obtain ⟨f1, hf1, hid, hstat, hcase⟩ := hmem f hf
    rcases hcase with rfl | ⟨hge, hf1c⟩
    · exact h6 f hf1 hst
    · rw [hge] at hst
      have : f1.status = .pending := hst
      rw [hf1c] at this
      exact absurd this (by decide)
  · intro f hf hst
    simp only [clearCompletedState] at hf
    obtain ⟨f1, hf1, hid, hstat, hcase⟩ := hmem f hf
    rcases hcase with rfl | ⟨hge, hf1c⟩
    · exact h7 f hf1 hst
    · rw [hge] at hst
      have : f1.status = .uploading := hst
      rw [hf1c] at this
      exact absurd this (by decide)
  · intro f hf hst
    simp only [clearCompletedState] at hf
    obtain ⟨f1, hf1, hid, hstat, hcase⟩ := hmem f hf
    rcases hcase with rfl | ⟨hge, -⟩
    · exact h8 f hf1 hst
    · rw [hge]
      exact Or.inr rfl

/-- Every event preserves the full invariant. -/
theorem inv_applyEvent (maxConcurrent maxRetries : Nat) (s : QueueState)
    (e : Event) (h : Inv maxConcurrent s) :
    Inv maxConcurrent (applyEvent maxConcurrent maxRetries s e) := by
  cases e with
  | enqueue n => exact ⟨invCore_enqueueFiles h.1 n, h.2⟩
  | evalQueue => exact inv_processStep h
  | settleOk fid key url => exact inv_settleSuccess h fid key url
  | settleErr fid msg => exact inv_settleFailure h maxRetries fid msg
  | retryCmd fid => exact inv_retryFileState h fid
  | removeCmd fid delOk => exact inv_removeFileState h delOk fid
  | clearCmd delFail => exact inv_clearCompletedState h delFail

/-- Every reachable state satisfies the full invariant. -/
theorem inv_reachable {maxConcurrent maxRetries : Nat} {s : QueueState}
    (h : Reachable maxConcurrent maxRetries s) : Inv maxConcurrent s := by
  induction h with
  | init =>
    refine ⟨⟨?_, ?_, ?_, ?_, ?_, ?_, ?_⟩, ?_⟩ <;> simp [initialState]
  | step e hr ih => exact inv_applyEvent _ _ _ e ih

/-- Under the invariant, the number of items in Uploading status is bounded
by the configured ceiling. -/
theorem countUploading_le {maxConcurrent : Nat} {s : QueueState}
    (h : Inv maxConcurrent s) :
    (s.files.filter (fun f => f.status == .uploading)).length ≤
      maxConcurrent := by
  obtain ⟨⟨h1, h2, h3, h4, h6, h7, h8⟩, hb⟩ := h
  have hnd : ((s.files.filter (fun f => f.status == .uploading)).map
      (fun f => f.id)).Nodup :=
    h1.sublist ((List.filter_sublist s.files).map (fun f => f.id))
  have hsub : ((s.files.filter (fun f => f.status == .uploading)).map
      (fun f => f.id)) ⊆ s.uploading := by
    intro x hx
    obtain ⟨f, hf, rfl⟩ := List.mem_map.1 hx
    have hmemf := List.mem_filter.1 hf
    exact h4 f hmemf.1 (by simpa using hmemf.2)
  have hle := (List.subperm_of_subset hnd hsub).length_le
  rw [List.length_map] at hle
  exact le_trans hle hb

/-- The C9 trace state is reachable. -/
theorem reachable_traceStateC9 : Reachable 2 3 traceStateC9 :=
  Reachable.step (Event.removeCmd 0 false)
    (Reachable.step (Event.settleOk 0 "k" "u")
      (Reachable.step Event.evalQueue
        (Reachable.step (Event.enqueue 1) Reachable.init)))

/-! Claim theorems. -/

/-- C10: the status counts partition the collection: every item's status is
exactly one of the four statuses, so `total` equals the sum of the four
per-status counts. -/
theorem stats_total_partition (files : List FileUploadItem) :
    (stats files).total =
      (stats files).pending + (stats files).uploading +
        (stats files).completed + (stats files).failed := by
  simp only [stats]
  induction files with
  | nil => rfl
  | cons f fs ih =>
    cases h : f.status <;>
      simp [List.filter_cons, h, ih] <;> omega

/-- C6 counterexample: `retryFile` on an item whose status is Completed is
not a no-op: the item is reset to Pending. -/
theorem retryFile_mutates_completed_item :
    retryFile [completedItemC6] 0 ≠ [completedItemC6] := by
  decide

/-- C6 amended: `retryFile fileId` resets every item whose id matches to
Pending with progress 0 and cleared error, regardless of its current status
(in particular it performs the documented reset on a Failed item), and
leaves every item with a different id untouched. -/
theorem retryFile_resets_matching_item (files : List FileUploadItem)
    (fileId : Nat) (f : FileUploadItem) (hf : f ∈ files) :
    (f.id ≠ fileId → f ∈ retryFile files fileId) ∧
      (f.id = fileId →
        { f with status := .pending, progress := 0, error := none } ∈
          retryFile files fileId) := by
  constructor
  · intro hne
    refine List.mem_map.2 ⟨f, hf, ?_⟩
    simp [hne]
  · intro he
    refine List.mem_map.2 ⟨f, hf, ?_⟩
    simp [he]

/-- C6 witness: applying the amended statement to a concrete one-item queue
holding a Failed item. -/
theorem retryFile_resets_matching_item_witness :
    { mkItem 4 .failed with status := .pending, progress := 0, error := none }
      ∈ retryFile [mkItem 4 .failed] 4 :=
  (retryFile_resets_matching_item [mkItem 4 .failed] 4 (mkItem 4 .failed)
    (by decide)).2 rfl

/-- C4 counterexample: in the two-retryable-failures-then-success scenario
with `maxRetries = 3`, the final item is Completed but its `retryCount` is
not 2: the hook never updates `retryCount` on a successful settlement, so it
keeps its initial value 0. -/
theorem retry_success_retryCount_not_two :
    (finalizeItem 3 (uploadWithRetry outcomesC4 3).1
        (mkItem 0 .uploading)).status = .completed ∧
      (finalizeItem 3 (uploadWithRetry outcomesC4 3).1
          (mkItem 0 .uploading)).retryCount ≠ 2 := by
  decide

/-- C4 amended: for an item whose transfer fails with retryable errors on
attempts 1 and 2 and succeeds on attempt 3 (with `maxRetries ≥ 2`), the
upload settles on attempt index 2 and the final item state has status
Completed with `retryCount` unchanged from before the transfer (0 for a
freshly enqueued item), not 2. -/
theorem retry_success_keeps_retryCount (outcomes : Nat → AttemptOutcome)
    (maxRetries : Nat) (f : FileUploadItem) (k u m0 m1 c0 c1 : String)
    (h0 : outcomes 0 = .failure m0 true c0)
    (h1 : outcomes 1 = .failure m1 true c1)
    (h2 : outcomes 2 = .success k u)
    (hmr : 2 ≤ maxRetries) :
    (uploadWithRetry outcomes maxRetries).2 = 2 ∧
      (finalizeItem maxRetries (uploadWithRetry outcomes maxRetries).1
          f).status = .completed ∧
      (finalizeItem maxRetries (uploadWithRetry outcomes maxRetries).1
          f).retryCount = f.retryCount := by
  obtain ⟨m, rfl⟩ : ∃ m, maxRetries = m + 2 := ⟨maxRetries - 2, by omega⟩
  cases m <;>
    simp [uploadWithRetry, uploadWithRetryAux, h0, h1, h2, finalizeItem]

/-- C4 witness: the amended statement applied to the concrete C4 scenario. -/
theorem retry_success_keeps_retryCount_witness :
    (uploadWithRetry outcomesC4 3).2 = 2 ∧
      (finalizeItem 3 (uploadWithRetry outcomesC4 3).1
          (mkItem 0 .uploading)).status = .completed ∧
      (finalizeItem 3 (uploadWithRetry outcomesC4 3).1
          (mkItem 0 .uploading)).retryCount = (mkItem 0 .uploading).retryCount :=
  retry_success_keeps_retryCount outcomesC4 3 (mkItem 0 .uploading)
    "key" "url" _ _ _ _ rfl rfl rfl (by decide)

/-- C5 counterexample: an item whose first attempt fails with non-retryable
USER_CANCELLED (with `maxRetries = 3`) does reach Failed immediately, but its
`retryCount` is 3, not 0: the hook's catch branch stamps
`retryCount = maxRetries` on every terminal failure. -/
theorem cancelled_item_retryCount_not_zero :
    (finalizeItem 3 (uploadWithRetry outcomesC5 3).1
        (mkItem 0 .uploading)).status = .failed ∧
      (finalizeItem 3 (uploadWithRetry outcomesC5 3).1
          (mkItem 0 .uploading)).retryCount ≠ 0 := by
  decide

/-- C5 amended: an item whose first attempt fails with a non-retryable error
makes no further transfer attempts (the loop settles on attempt index 0) and
immediately reaches status Failed — but with `retryCount = maxRetries`, not
0, because the hook overwrites `retryCount` with `maxRetries` on terminal
failure. -/
theorem nonretryable_fails_immediately (outcomes : Nat → AttemptOutcome)
    (maxRetries : Nat) (f : FileUploadItem) (m c : String)
    (h0 : outcomes 0 = .failure m false c) :
    uploadWithRetry outcomes maxRetries = (.failure m false c, 0) ∧
      (finalizeItem maxRetries (uploadWithRetry outcomes maxRetries).1
          f).status = .failed ∧
      (finalizeItem maxRetries (uploadWithRetry outcomes maxRetries).1
          f).retryCount = maxRetries := by
  cases maxRetries <;>
    simp [uploadWithRetry, uploadWithRetryAux, h0, finalizeItem]

/-- C5 witness: the amended statement applied to the concrete C5 scenario. -/
theorem nonretryable_fails_immediately_witness :
    uploadWithRetry outcomesC5 3 =
        (.failure "Upload cancelled by user" false "USER_CANCELLED", 0) ∧
      (finalizeItem 3 (uploadWithRetry outcomesC5 3).1
          (mkItem 0 .uploading)).status = .failed ∧
      (finalizeItem 3 (uploadWithRetry outcomesC5 3).1
          (mkItem 0 .uploading)).retryCount = 3 :=
  nonretryable_fails_immediately outcomesC5 3 (mkItem 0 .uploading)
    "Upload cancelled by user" "USER_CANCELLED" rfl

/-- C3 counterexample: a 400 response whose parseable error body does not
mark `retryable` at all is classified retryable = true, not false: the code
defaults to retryable unless the body explicitly carries
`retryable: false`. -/
theorem http400_without_flag_is_retryable :
    ¬ (classifyHttpFailure 400 "Bad Request"
        (.parsed (some { message := some "Invalid file", retryable := none,
                         code := some "VALIDATION_ERROR" }))).retryable
      = false := by
  decide

/-- C3 amended: for a response with HTTP status in [400,499], the attempt is
classified non-retryable exactly when the body is unparseable or the body's
error object explicitly marks `retryable: false`; a parseable body that does
not explicitly mark `retryable: false` (in particular one that does not
mention `retryable` at all) yields retryable = true. -/
theorem http4xx_retryable_characterization (status : Nat)
    (statusText : String) (body : ErrorResponseBody)
    (h4 : 400 ≤ status) (h5 : status ≤ 499) :
    (classifyHttpFailure status statusText body).retryable = false ↔
      (body = .unparseable ∨
        ∃ e, body = .parsed (some e) ∧ e.retryable = some false) := by
  cases body with
  | unparseable =>
    simp only [classifyHttpFailure]
    constructor
    · intro _
      exact Or.inl trivial
    · intro _
      simp only [decide_eq_false_iff_not]
      omega
  | parsed e? =>
    cases e? with
    | none =>
      simp [classifyHttpFailure]
    | some e =>
      cases he : e.retryable with
      | none => simp [classifyHttpFailure, he]
      | some b =>
        cases b <;> simp [classifyHttpFailure, he]

/-- C3 witness: the amended characterization applied to a 404 with an
unparseable body, which is indeed classified non-retryable. -/
theorem http4xx_retryable_characterization_witness :
    (classifyHttpFailure 404 "Not Found" .unparseable).retryable = false :=
  (http4xx_retryable_characterization 404 "Not Found" .unparseable
    (by decide) (by decide)).2 (Or.inl rfl)

/-- C2 counterexample: `clearCompleted` on a queue holding one Failed item
and one Completed item without a remote key removes both, although no remote
deletion succeeded (none was even attempted): Failed items are not left
untouched, and keyless Completed items are removed without any deletion. -/
theorem clearCompleted_removes_failed_and_keyless :
    clearCompletedFiles [] [mkItem 0 .failed, mkItem 1 .completed] = [] := by
  decide

/-- C2 amended: `clearCompleted` leaves Pending and Uploading items
untouched and keeps every Completed item whose remote deletion failed,
attaching the delete-failure error to it; but it removes all Failed items,
and it removes every other Completed item — both those whose deletion
succeeded and those without a remote key, for which no deletion is
attempted. -/
theorem clearCompleted_characterization (delFail : List String)
    (files : List FileUploadItem)
    (hnd : (files.map (fun f => f.id)).Nodup) :
    (∀ f ∈ files, (f.status = .pending ∨ f.status = .uploading) →
        f ∈ clearCompletedFiles delFail files) ∧
    (∀ g ∈ clearCompletedFiles delFail files, g.status ≠ .failed) ∧
    (∀ f ∈ files, f.status = .completed → ∀ k, f.s3Key = some k →
        k ∈ delFail →
        { f with error := some deleteErrorMsg } ∈
          clearCompletedFiles delFail files) ∧
    (∀ f ∈ files, f.status = .completed →
        (∀ k, f.s3Key = some k → k ∉ delFail) →
        ∀ g ∈ clearCompletedFiles delFail files, g.id ≠ f.id) := by
  have idInj : ∀ x ∈ files, ∀ y ∈ files, x.id = y.id → x = y :=
    id_inj_of_nodup hnd
  refine ⟨?_, ?_, ?_, ?_⟩
  · -- pending and uploading items are untouched
    intro f hf hst
    have hnotin : f.id ∉ failedDeleteIds delFail files := by
      intro hin
      obtain ⟨g, hg, hgid, hgst, -⟩ :=
        (mem_failedDeleteIds delFail files f.id).1 hin
      have hgf : g = f := idInj g hg f hf hgid
      rcases hst with h | h <;> rw [hgf, h] at hgst <;> simp at hgst
    simp only [clearCompletedFiles, List.mem_filter]
    refine ⟨List.mem_map.2 ⟨f, hf, by simp [markDeleteFailed, hnotin]⟩, ?_⟩
    rcases hst with h | h <;> simp [h]
  · -- no failed item survives
    intro g hg hst
    simp only [clearCompletedFiles, List.mem_filter] at hg
    rcases hg with ⟨-, hkeep⟩
    simp [hst] at hkeep
  · -- completed items with a failing remote deletion are kept, with the error
    intro f hf hst k hsk hkf
    have hin : f.id ∈ failedDeleteIds delFail files :=
      (mem_failedDeleteIds delFail files f.id).2
        ⟨f, hf, rfl, hst, k, hsk, hkf⟩
    simp only [clearCompletedFiles, List.mem_filter]
    refine ⟨List.mem_map.2 ⟨f, hf, by simp [markDeleteFailed, hin]⟩, ?_⟩
    simp [hst, hin]
  · -- other completed items are removed
    intro f hf hst hok g hg hgid
    simp only [clearCompletedFiles, List.mem_filter, List.mem_map] at hg
    rcases hg with ⟨⟨f0, hf0, hf0eq⟩, hkeep⟩
    by_cases hc : f0.id ∈ failedDeleteIds delFail files
    · -- the marked item would have a failing key, contradicting `hok`
      have hgid0 : g.id = f0.id := by
        rw [← hf0eq]
        simp [markDeleteFailed, hc]
      have hf0f : f0 = f := idInj f0 hf0 f hf (by rw [← hgid0, hgid])
      obtain ⟨f1, hf1, hf1id, -, k1, hk1, hk1f⟩ :=
        (mem_failedDeleteIds delFail files f0.id).1 hc
      have hf1f0 : f1 = f0 := idInj f1 hf1 f0 hf0 hf1id
      rw [hf1f0, hf0f] at hk1
      exact hok k1 hk1 hk1f
    · -- unmarked: g is f itself, and the keep-predicate rejects it
      have hgf0 : g = f0 := by
        rw [← hf0eq]
        simp [markDeleteFailed, hc]
      have hf0f : f0 = f := idInj f0 hf0 f hf (hgf0 ▸ hgid)
      rw [hgf0, hf0f] at hkeep
      simp [hst, hf0f ▸ hc] at hkeep

/-- C2 witness: the amended characterization applied to `filesC2w`, keeping
the pending item. -/
theorem clearCompleted_characterization_witness :
    mkItem 0 .pending ∈ clearCompletedFiles ["bad"] filesC2w :=
  (clearCompleted_characterization ["bad"] filesC2w (by decide)).1
    (mkItem 0 .pending) (by decide) (Or.inl rfl)

/-- C8: admission is strict FIFO: at one scheduling evaluation, if the j-th
pending item (in enqueue order) is admitted, then so is every earlier
pending item.  The id-uniqueness hypothesis reflects the source's unique
`generateId` ids. -/
theorem admission_fifo (maxConcurrent uploadingCount : Nat)
    (files : List FileUploadItem)
    (hnd : (files.map (fun f => f.id)).Nodup)
    (i j : Nat) (hij : i ≤ j) (hj : j < (pendingList files).length)
    (hadm : (pendingList files).get ⟨j, hj⟩ ∈
      filesToUpload maxConcurrent uploadingCount files) :
    (pendingList files).get ⟨i, by omega⟩ ∈
      filesToUpload maxConcurrent uploadingCount files := by
  have hndp : (pendingList files).Nodup := by
    have h1 : List.Sublist ((pendingList files).map (fun f => f.id))
        (files.map (fun f => f.id)) :=
      (List.filter_sublist files).map (fun f => f.id)
    exact ((hnd.sublist h1).of_map _)
  set n := maxConcurrent - uploadingCount with hn
  have hjn : j < n := by
    obtain ⟨⟨m, hm⟩, hmeq⟩ := List.mem_iff_get.1 hadm
    have hm2 : m < n ⊓ (pendingList files).length := by
      simpa [filesToUpload, List.length_take] using hm
    have hmlt : m < n := lt_of_lt_of_le hm2 inf_le_left
    have hmlen : m < (pendingList files).length :=
      lt_of_lt_of_le hm2 inf_le_right
    have hmj : (pendingList files).get ⟨m, hmlen⟩ =
        (pendingList files).get ⟨j, hj⟩ := by
      rw [← hmeq]
      exact List.get_take _ hmlen hmlt
    have hfin := (List.Nodup.get_inj_iff hndp).1 hmj
    have hmval : m = j := by
      simpa using congrArg Fin.val hfin
    omega
  have hin : i < n := by omega
  have hilen : i < (pendingList files).length := by omega
  refine List.mem_iff_get.2 ⟨⟨i, ?_⟩, ?_⟩
  · simp only [filesToUpload, List.length_take]
    omega
  · exact (List.get_take _ hilen hin).symm

/-- C8 witness: in `filesC8w` with ceiling 2, the second pending item is
admitted, hence so is the first. -/
theorem admission_fifo_witness :
    (pendingList filesC8w).get ⟨0, by decide⟩ ∈ filesToUpload 2 0 filesC8w :=
  admission_fifo 2 0 filesC8w (by decide) 0 1 (by decide) (by decide)
    (by decide)

/-- C7: `remove(id)` on a Completed item holding a remote key whose remote
deletion fails keeps the item in the collection (the collection size is
unchanged) with the delete-failure error recorded on it. -/
theorem remove_delete_failure_keeps_item (s : QueueState) (fileId : Nat)
    (f : FileUploadItem)
    (hfind : s.files.find? (fun g => g.id == fileId) = some f)
    (hst : f.status = .completed) (hkey : f.s3Key.isSome) :
    { f with error := some deleteErrorMsg } ∈
        (removeFileState false s fileId).files ∧
      (removeFileState false s fileId).files.length = s.files.length := by
  have hmem : f ∈ s.files := List.mem_of_find?_eq_some hfind
  have hid := List.find?_some hfind
  have hres : (removeFileState false s fileId).files =
      updateById fileId (fun g => { g with error := some deleteErrorMsg })
        s.files := by
    unfold removeFileState
    rw [hfind]
    simp [hkey, hst]
  rw [hres]
  constructor
  · exact List.mem_map.2 ⟨f, hmem, by simp [hid]⟩
  · simp [updateById]

/-- C7 witness: removing the item of `stateC7w` while the remote deletion
fails leaves it present, carrying the delete-failure error. -/
theorem remove_delete_failure_keeps_item_witness :
    { itemC7w with error := some deleteErrorMsg } ∈
        (removeFileState false stateC7w 0).files ∧
      (removeFileState false stateC7w 0).files.length =
        stateC7w.files.length :=
  remove_delete_failure_keeps_item stateC7w 0 itemC7w (by decide) rfl rfl

/-- C1: along every event sequence (enqueues, scheduling evaluations,
settlements, and the user commands), the number of items whose status is
Uploading never exceeds the configured concurrency ceiling: each scheduling
evaluation admits at most `maxConcurrent - uploading.size` pending items. -/
theorem uploading_never_exceeds_ceiling (maxConcurrent maxRetries : Nat)
    (s : QueueState) (h : Reachable maxConcurrent maxRetries s) :
    (s.files.filter (fun f => f.status == .uploading)).length ≤
      maxConcurrent :=
  countUploading_le (inv_reachable h)

/-- C1 witness: after enqueuing three files with ceiling 2 and one
scheduling evaluation, at most 2 items are Uploading. -/
theorem uploading_never_exceeds_ceiling_witness :
    ((applyEvent 2 3 (applyEvent 2 3 initialState (Event.enqueue 3))
        Event.evalQueue).files.filter
      (fun f => f.status == .uploading)).length ≤ 2 :=
  uploading_never_exceeds_ceiling 2 3 _
    (Reachable.step Event.evalQueue
      (Reachable.step (Event.enqueue 3) Reachable.init))

/-- C9 counterexample: a reachable state (enqueue, admit, settle
successfully, then remove with a failing remote deletion) holds an item
whose error is present while its status is Completed, not Failed. -/
theorem error_present_on_nonfailed_item :
    Reachable 2 3 traceStateC9 ∧
      ∃ f ∈ traceStateC9.files, f.error.isSome = true ∧
        f.status ≠ .failed :=
  ⟨reachable_traceStateC9, by decide⟩

/-- C9 amended: in every reachable queue state, an item's error is present
only when its status is Failed or when it is a Completed item carrying the
delete-failure error left by a failed remote deletion; Pending and Uploading
items never carry an error. -/
theorem error_implies_failed_or_delete_failure
    (maxConcurrent maxRetries : Nat) (s : QueueState)
    (h : Reachable maxConcurrent maxRetries s) :
    ∀ f ∈ s.files, f.error.isSome = true →
      f.status = .failed ∨
        (f.status = .completed ∧ f.error = some deleteErrorMsg) := by
  obtain ⟨⟨h1, h2, h3, h4, h6, h7, h8⟩, -⟩ := inv_reachable h
  intro f hf herr
  cases hst : f.status with
  | pending =>
    rw [h6 f hf hst] at herr
    simp at herr
  | uploading =>
    rw [h7 f hf hst] at herr
    simp at herr
  | completed =>
    rcases h8 f hf hst with hn | hm
    · rw [hn] at herr
      simp at herr
    · exact Or.inr ⟨rfl, hm⟩
  | failed => exact Or.inl rfl

/-- C9 witness: the amended statement applied to the item of the concrete
reachable trace state, which is Completed with the delete-failure error. -/
theorem error_implies_failed_or_delete_failure_witness :
    itemC9w.status = .failed ∨
      (itemC9w.status = .completed ∧ itemC9w.error = some deleteErrorMsg) :=
  error_implies_failed_or_delete_failure 2 3 traceStateC9
    reachable_traceStateC9 itemC9w (by decide) (by decide)

end FileUploader
